import Mathlib

/-!
A shallow embedding of the `simd_distance` Rust crate (`src/cartesian.rs`).

Machine floating-point values are modelled as real numbers, SIMD vectors as
lists of lane values, and the `rayon` parallel chunk pipelines by their
order-preserving sequential semantics: `par_chunks_exact … map … reduce`
with list concatenation reassembles the per-block results in original block
order, so the observable value is the in-order concatenation of the mapped
chunks.  `Simd::mul_add` (fused multiply-add) has exact real semantics
`x * y + z`.
-/

namespace SimdDistance

/-- Lockstep map over four lists, truncating at the shortest.  This is the
semantics of Rust `zip` applied three times to four iterators of equal or
unequal lengths. -/
def map4 {α β γ δ ε : Type} (f : α → β → γ → δ → ε) :
    List α → List β → List γ → List δ → List ε
  | a :: as, b :: bs, c :: cs, d :: ds => f a b c d :: map4 f as bs cs ds
  | _, _, _, _ => []

/-- Semantics of Rust `slice::chunks_exact(w)`: consecutive non-overlapping
`w`-sized windows, with the trailing remainder shorter than `w` dropped. -/
def chunksExact {α : Type} (w : Nat) (xs : List α) : List (List α) :=
  if _h : 0 < w ∧ w ≤ xs.length then xs.take w :: chunksExact w (xs.drop w) else []
termination_by xs.length
decreasing_by
  simp only [List.length_drop]
  omega

/-- Real-number semantics of `Simd::mul_add` / fused multiply-add.  The real
numbers themselves carry no executable code, so the distance kernels below are
necessarily noncomputable; all structural facts (lengths, chunk boundaries)
remain evaluable because they never inspect lane values. -/
def mulAdd (x y z : ℝ) : ℝ := x * y + z

noncomputable section

/-- Embedding of `cartesian_elementwise` from `src/cartesian.rs`: the scalar
kernel `sqrt ((rhs_x - lhs_x)² + (rhs_y - lhs_y)²)`, written with the source's
explicit multiplications. -/
def cartesian_elementwise (lhs_x lhs_y rhs_x rhs_y : ℝ) : ℝ :=
  Real.sqrt ((rhs_x - lhs_x) * (rhs_x - lhs_x) + (rhs_y - lhs_y) * (rhs_y - lhs_y))

/-- Embedding of `cartesian_simd` from `src/cartesian.rs`: the lane-wise SIMD
kernel, using `mul_add` for the `dx*dx + dy*dy` step exactly as the source
does. -/
def cartesian_simd (lhs_x lhs_y rhs_x rhs_y : List ℝ) : List ℝ :=
  map4 (fun lx ly rx ry =>
    Real.sqrt (mulAdd (rx - lx) (rx - lx) ((ry - ly) * (ry - ly))))
    lhs_x lhs_y rhs_x rhs_y

/-- Embedding of `cartesian_seq_simd` from `src/cartesian.rs`: zip the four
`chunks_exact(64)` streams, apply `cartesian_simd` to every window quadruple,
and append each window's lanes in window order (the source's `fold` with
`Vec::extend`). -/
def cartesian_seq_simd (lhs_x lhs_y rhs_x rhs_y : List ℝ) : List ℝ :=
  (map4 cartesian_simd
    (chunksExact 64 lhs_x) (chunksExact 64 lhs_y)
    (chunksExact 64 rhs_x) (chunksExact 64 rhs_y)).flatten

/-- Embedding of `cartesian_par_simd` from `src/cartesian.rs`: zip the four
`par_chunks_exact(64)` streams, apply `cartesian_simd` per window, and combine
with the order-preserving `reduce` by concatenation. -/
def cartesian_par_simd (lhs_x lhs_y rhs_x rhs_y : List ℝ) : List ℝ :=
  (map4 cartesian_simd
    (chunksExact 64 lhs_x) (chunksExact 64 lhs_y)
    (chunksExact 64 rhs_x) (chunksExact 64 rhs_y)).flatten

/-- Embedding of `cartesian_par_elementwise` from `src/cartesian.rs`: zip the
four `par_chunks_exact(128000)` streams, apply `cartesian_elementwise` to every
element of each block, and combine blocks with the order-preserving `reduce` by
concatenation. -/
def cartesian_par_elementwise (lhs_x lhs_y rhs_x rhs_y : List ℝ) : List ℝ :=
  (map4 (fun lx ly rx ry => map4 cartesian_elementwise lx ly rx ry)
    (chunksExact 128000 lhs_x) (chunksExact 128000 lhs_y)
    (chunksExact 128000 rhs_x) (chunksExact 128000 rhs_y)).flatten

/-- Embedding of `cartesian_par_batch_simd` from `src/cartesian.rs`: zip the
four `par_chunks_exact(128000)` streams; inside each block, zip the four
`chunks_exact(64)` streams and fold the `cartesian_simd` window results into a
local buffer; combine blocks with the order-preserving `reduce` by
concatenation. -/
def cartesian_par_batch_simd (lhs_x lhs_y rhs_x rhs_y : List ℝ) : List ℝ :=
  (map4 (fun lx ly rx ry =>
      (map4 cartesian_simd
        (chunksExact 64 lx) (chunksExact 64 ly)
        (chunksExact 64 rx) (chunksExact 64 ry)).flatten)
    (chunksExact 128000 lhs_x) (chunksExact 128000 lhs_y)
    (chunksExact 128000 rhs_x) (chunksExact 128000 rhs_y)).flatten

end

/-- Length of the shortest of four lists; Rust `zip` truncates all four
iterator streams to this many items. -/
def minLen4 {α β γ δ : Type} (a : List α) (b : List β) (c : List γ) (d : List δ) : Nat :=
  min (min a.length b.length) (min c.length d.length)

/-! Basic lemmas about `map4`. -/

@[simp]
lemma map4_cons {α β γ δ ε : Type} (f : α → β → γ → δ → ε)
    (a : α) (as : List α) (b : β) (bs : List β)
    (c : γ) (cs : List γ) (d : δ) (ds : List δ) :
    map4 f (a :: as) (b :: bs) (c :: cs) (d :: ds) = f a b c d :: map4 f as bs cs ds :=
  rfl

@[simp]
lemma map4_nil_fst {α β γ δ ε : Type} (f : α → β → γ → δ → ε)
    (bs : List β) (cs : List γ) (ds : List δ) :
    map4 f [] bs cs ds = [] := by
  cases bs <;> cases cs <;> cases ds <;> rfl

@[simp]
lemma map4_nil_snd {α β γ δ ε : Type} (f : α → β → γ → δ → ε)
    (as : List α) (cs : List γ) (ds : List δ) :
    map4 f as [] cs ds = [] := by
  cases as <;> cases cs <;> cases ds <;> rfl

@[simp]
lemma map4_nil_thd {α β γ δ ε : Type} (f : α → β → γ → δ → ε)
    (as : List α) (bs : List β) (ds : List δ) :
    map4 f as bs [] ds = [] := by
  cases as <;> cases bs <;> cases ds <;> rfl

@[simp]
lemma map4_nil_fth {α β γ δ ε : Type} (f : α → β → γ → δ → ε)
    (as : List α) (bs : List β) (cs : List γ) :
    map4 f as bs cs [] = [] := by
  cases as <;> cases bs <;> cases cs <;> rfl

lemma map4_length {α β γ δ ε : Type} (f : α → β → γ → δ → ε) :
    ∀ (as : List α) (bs : List β) (cs : List γ) (ds : List δ),
      (map4 f as bs cs ds).length = minLen4 as bs cs ds
  | [], bs, cs, ds => by simp [minLen4]
  | _ :: _, [], cs, ds => by simp [minLen4]
  | _ :: _, _ :: _, [], ds => by simp [minLen4]
  | _ :: _, _ :: _, _ :: _, [] => by simp [minLen4]
  | a :: as, b :: bs, c :: cs, d :: ds => by
    simp only [map4_cons, List.length_cons, map4_length f as bs cs ds, minLen4]
    omega

/-! Basic lemmas about `chunksExact`. -/

lemma chunksExact_of_le {α : Type} {w : Nat} (hw : 0 < w) {xs : List α}
    (h : w ≤ xs.length) :
    chunksExact w xs = xs.take w :: chunksExact w (xs.drop w) := by
  rw [chunksExact]
  exact dif_pos ⟨hw, h⟩

lemma chunksExact_of_lt {α : Type} {w : Nat} {xs : List α} (h : xs.length < w) :
    chunksExact w xs = [] := by
  rw [chunksExact]
  exact dif_neg (by omega)

lemma chunksExact_length {α : Type} (w : Nat) (hw : 0 < w) (xs : List α) :
    (chunksExact w xs).length = xs.length / w := by
  by_cases h : w ≤ xs.length
  · rw [chunksExact_of_le hw h, List.length_cons,
      chunksExact_length w hw (xs.drop w), List.length_drop]
    have hk : xs.length - w + w = xs.length := Nat.sub_add_cancel h
    calc (xs.length - w) / w + 1 = (xs.length - w + w) / w := (Nat.add_div_right _ hw).symm
    _ = xs.length / w := by rw [hk]
  · rw [chunksExact_of_lt (by omega)]
    simp [Nat.div_eq_of_lt (by omega : xs.length < w)]
termination_by xs.length
decreasing_by
  simp only [List.length_drop]
  omega

lemma chunksExact_mem_length {α : Type} {w : Nat} {xs c : List α}
    (hc : c ∈ chunksExact w xs) : c.length = w := by
  by_cases h : 0 < w ∧ w ≤ xs.length
  · rw [chunksExact_of_le h.1 h.2] at hc
    rcases List.mem_cons.mp hc with h1 | h2
    · subst h1
      simp only [List.length_take]
      omega
    · exact chunksExact_mem_length h2
  · rw [chunksExact, dif_neg h] at hc
    exact absurd hc (List.not_mem_nil c)
termination_by xs.length
decreasing_by
  simp only [List.length_drop]
  omega

lemma min_div (x y w : Nat) : min x y / w = min (x / w) (y / w) := by
  rcases le_total x y with hxy | hxy
  · rw [min_eq_left hxy, min_eq_left (Nat.div_le_div_right hxy)]
  · rw [min_eq_right hxy, min_eq_right (Nat.div_le_div_right hxy)]

lemma minLen4_chunksExact {α : Type} (w : Nat) (hw : 0 < w) (a b c d : List α) :
    minLen4 (chunksExact w a) (chunksExact w b) (chunksExact w c) (chunksExact w d)
      = minLen4 a b c d / w := by
  unfold minLen4
  rw [chunksExact_length w hw, chunksExact_length w hw, chunksExact_length w hw,
    chunksExact_length w hw, min_div, min_div, min_div]

/-! Further lemmas about `map4`. -/

lemma map4_append {α β γ δ ε : Type} (f : α → β → γ → δ → ε) :
    ∀ (a1 : List α) (b1 : List β) (c1 : List γ) (d1 : List δ),
      a1.length = b1.length → a1.length = c1.length → a1.length = d1.length →
      ∀ (a2 : List α) (b2 : List β) (c2 : List γ) (d2 : List δ),
        map4 f (a1 ++ a2) (b1 ++ b2) (c1 ++ c2) (d1 ++ d2)
          = map4 f a1 b1 c1 d1 ++ map4 f a2 b2 c2 d2
  | [], b1, c1, d1, h1, h2, h3, a2, b2, c2, d2 => by
    obtain rfl : b1 = [] := List.length_eq_zero.mp h1.symm
    obtain rfl : c1 = [] := List.length_eq_zero.mp h2.symm
    obtain rfl : d1 = [] := List.length_eq_zero.mp h3.symm
    simp
  | a :: as, b1, c1, d1, h1, h2, h3, a2, b2, c2, d2 => by
    cases b1 with
    | nil => exact absurd h1 (by simp)
    | cons b bs =>
      cases c1 with
      | nil => exact absurd h2 (by simp)
      | cons c cs =>
        cases d1 with
        | nil => exact absurd h3 (by simp)
        | cons d ds =>
          simp only [List.cons_append, map4_cons]
          rw [map4_append f as bs cs ds (by simpa using h1) (by simpa using h2)
            (by simpa using h3) a2 b2 c2 d2]

lemma map4_congr {α β γ δ ε : Type} {f g : α → β → γ → δ → ε} :
    ∀ {as : List α} {bs : List β} {cs : List γ} {ds : List δ},
      (∀ a ∈ as, ∀ b ∈ bs, ∀ c ∈ cs, ∀ d ∈ ds, f a b c d = g a b c d) →
      map4 f as bs cs ds = map4 g as bs cs ds
  | [], _, _, _, _ => by simp
  | _ :: _, [], _, _, _ => by simp
  | _ :: _, _ :: _, [], _, _ => by simp
  | _ :: _, _ :: _, _ :: _, [], _ => by simp
  | a :: as, b :: bs, c :: cs, d :: ds, h => by
    simp only [map4_cons]
    rw [h a (by simp) b (by simp) c (by simp) d (by simp),
      map4_congr (fun x hx y hy z hz t ht =>
        h x (List.mem_cons_of_mem a hx) y (List.mem_cons_of_mem b hy)
          z (List.mem_cons_of_mem c hz) t (List.mem_cons_of_mem d ht))]

lemma mem_map4 {α β γ δ ε : Type} {f : α → β → γ → δ → ε} :
    ∀ {as : List α} {bs : List β} {cs : List γ} {ds : List δ} {e : ε},
      e ∈ map4 f as bs cs ds →
      ∃ a b c d, a ∈ as ∧ b ∈ bs ∧ c ∈ cs ∧ d ∈ ds ∧ e = f a b c d
  | [], _, _, _, _, he => by simp at he
  | _ :: _, [], _, _, _, he => by simp at he
  | _ :: _, _ :: _, [], _, _, he => by simp at he
  | _ :: _, _ :: _, _ :: _, [], _, he => by simp at he
  | a :: as, b :: bs, c :: cs, d :: ds, e, he => by
    rcases List.mem_cons.mp he with h0 | h1
    · exact ⟨a, b, c, d, by simp, by simp, by simp, by simp, h0⟩
    · obtain ⟨x, y, z, t, hx, hy, hz, ht, rfl⟩ := mem_map4 h1
      exact ⟨x, y, z, t, List.mem_cons_of_mem a hx, List.mem_cons_of_mem b hy,
        List.mem_cons_of_mem c hz, List.mem_cons_of_mem d ht, rfl⟩

lemma map4_getD (f : ℝ → ℝ → ℝ → ℝ → ℝ) :
    ∀ (as bs cs ds : List ℝ) (i : Nat), i < minLen4 as bs cs ds →
      (map4 f as bs cs ds).getD i 0
        = f (as.getD i 0) (bs.getD i 0) (cs.getD i 0) (ds.getD i 0)
  | [], _, _, _, _, h => absurd h (by unfold minLen4; simp)
  | _ :: _, [], _, _, _, h => absurd h (by unfold minLen4; simp)
  | _ :: _, _ :: _, [], _, _, h => absurd h (by unfold minLen4; simp)
  | _ :: _, _ :: _, _ :: _, [], _, h => absurd h (by unfold minLen4; simp)
  | a :: as, b :: bs, c :: cs, d :: ds, 0, _ => rfl
  | a :: as, b :: bs, c :: cs, d :: ds, i + 1, h => by
    simp only [map4_cons, List.getD_cons_succ]
    exact map4_getD f as bs cs ds i (by unfold minLen4 at h ⊢; simp at h; omega)

/-! Central structural lemma: flattening the chunk-level `map4` of any
element-level `map4` kernel over the four `chunksExact w` streams computes the
pointwise `map4` of the kernel over the original lists, truncated to the last
full window boundary `w * (minLen4 / w)`. -/

lemma flatten_map4_chunksExact {α β : Type} (w : Nat) (hw : 0 < w)
    (f : α → α → α → α → β) (a b c d : List α) :
    (map4 (fun ca cb cc cd => map4 f ca cb cc cd)
      (chunksExact w a) (chunksExact w b) (chunksExact w c) (chunksExact w d)).flatten
      = (map4 f a b c d).take (w * (minLen4 a b c d / w)) := by
  by_cases h : w ≤ minLen4 a b c d
  · have ha : w ≤ a.length := by unfold minLen4 at h; omega
    have hb : w ≤ b.length := by unfold minLen4 at h; omega
    have hc : w ≤ c.length := by unfold minLen4 at h; omega
    have hd : w ≤ d.length := by unfold minLen4 at h; omega
    rw [chunksExact_of_le hw ha, chunksExact_of_le hw hb, chunksExact_of_le hw hc,
      chunksExact_of_le hw hd, map4_cons, List.flatten_cons,
      flatten_map4_chunksExact w hw f (a.drop w) (b.drop w) (c.drop w) (d.drop w)]
    have hm : minLen4 (a.drop w) (b.drop w) (c.drop w) (d.drop w) = minLen4 a b c d - w := by
      unfold minLen4
      simp only [List.length_drop]
      omega
    have hsplit : map4 f a b c d
        = map4 f (a.take w) (b.take w) (c.take w) (d.take w)
          ++ map4 f (a.drop w) (b.drop w) (c.drop w) (d.drop w) := by
      conv_lhs => rw [← List.take_append_drop w a, ← List.take_append_drop w b,
        ← List.take_append_drop w c, ← List.take_append_drop w d]
      exact map4_append f (a.take w) (b.take w) (c.take w) (d.take w)
        (by simp only [List.length_take]; omega)
        (by simp only [List.length_take]; omega)
        (by simp only [List.length_take]; omega)
        (a.drop w) (b.drop w) (c.drop w) (d.drop w)
    have hlen : (map4 f (a.take w) (b.take w) (c.take w) (d.take w)).length = w := by
      rw [map4_length]
      unfold minLen4
      simp only [List.length_take]
      omega
    have hdiv : w * (minLen4 a b c d / w) = w + w * ((minLen4 a b c d - w) / w) := by
      obtain ⟨k, hk⟩ := Nat.exists_eq_add_of_le h
      rw [hk, Nat.add_sub_cancel_left, Nat.add_comm w k, Nat.add_div_right k hw,
        Nat.mul_add, Nat.mul_one, Nat.add_comm]
    have htail := @List.take_append _
      (map4 f (a.take w) (b.take w) (c.take w) (d.take w))
      (map4 f (a.drop w) (b.drop w) (c.drop w) (d.drop w))
      (w * ((minLen4 a b c d - w) / w))
    rw [hlen] at htail
    rw [hm, hsplit, hdiv, htail]
  · push_neg at h
    have h0 : map4 (fun ca cb cc cd => map4 f ca cb cc cd)
        (chunksExact w a) (chunksExact w b) (chunksExact w c) (chunksExact w d) = [] := by
      apply List.length_eq_zero.mp
      rw [map4_length, minLen4_chunksExact w hw, Nat.div_eq_of_lt h]
    rw [h0, Nat.div_eq_of_lt h]
    simp
termination_by a.length
decreasing_by
  simp only [List.length_drop]
  omega

/-! Normal forms: each driver equals the pointwise scalar map truncated at its
effective chunk boundary. -/

lemma cartesian_simd_eq_map4 (a b c d : List ℝ) :
    cartesian_simd a b c d = map4 cartesian_elementwise a b c d := rfl

lemma cartesian_seq_simd_eq_take (lx ly rx ry : List ℝ) :
    cartesian_seq_simd lx ly rx ry
      = (map4 cartesian_elementwise lx ly rx ry).take (64 * (minLen4 lx ly rx ry / 64)) :=
  flatten_map4_chunksExact 64 (by norm_num) cartesian_elementwise lx ly rx ry

lemma cartesian_par_simd_eq_take (lx ly rx ry : List ℝ) :
    cartesian_par_simd lx ly rx ry
      = (map4 cartesian_elementwise lx ly rx ry).take (64 * (minLen4 lx ly rx ry / 64)) :=
  flatten_map4_chunksExact 64 (by norm_num) cartesian_elementwise lx ly rx ry

lemma cartesian_par_elementwise_eq_take (lx ly rx ry : List ℝ) :
    cartesian_par_elementwise lx ly rx ry
      = (map4 cartesian_elementwise lx ly rx ry).take
          (128000 * (minLen4 lx ly rx ry / 128000)) :=
  flatten_map4_chunksExact 128000 (by norm_num) cartesian_elementwise lx ly rx ry

lemma cartesian_par_batch_simd_eq_take (lx ly rx ry : List ℝ) :
    cartesian_par_batch_simd lx ly rx ry
      = (map4 cartesian_elementwise lx ly rx ry).take
          (128000 * (minLen4 lx ly rx ry / 128000)) := by
  have hinner : ∀ a ∈ chunksExact 128000 lx, ∀ b ∈ chunksExact 128000 ly,
      ∀ c ∈ chunksExact 128000 rx, ∀ d ∈ chunksExact 128000 ry,
      (map4 cartesian_simd (chunksExact 64 a) (chunksExact 64 b)
        (chunksExact 64 c) (chunksExact 64 d)).flatten
        = map4 cartesian_elementwise a b c d := by
    intro a ha b hb c hc d hd
    have hla := chunksExact_mem_length ha
    have hlb := chunksExact_mem_length hb
    have hlc := chunksExact_mem_length hc
    have hld := chunksExact_mem_length hd
    have hmm : minLen4 a b c d = 128000 := by
      unfold minLen4
      omega
    have h64 : (map4 cartesian_simd (chunksExact 64 a) (chunksExact 64 b)
        (chunksExact 64 c) (chunksExact 64 d)).flatten
        = (map4 cartesian_elementwise a b c d).take (64 * (minLen4 a b c d / 64)) :=
      flatten_map4_chunksExact 64 (by norm_num) cartesian_elementwise a b c d
    rw [h64]
    apply List.take_of_length_le
    rw [map4_length]
    omega
  calc cartesian_par_batch_simd lx ly rx ry
      = (map4 (fun a b c d => map4 cartesian_elementwise a b c d)
          (chunksExact 128000 lx) (chunksExact 128000 ly)
          (chunksExact 128000 rx) (chunksExact 128000 ry)).flatten :=
        congrArg List.flatten (map4_congr hinner)
    _ = (map4 cartesian_elementwise lx ly rx ry).take
          (128000 * (minLen4 lx ly rx ry / 128000)) :=
        flatten_map4_chunksExact 128000 (by norm_num) cartesian_elementwise lx ly rx ry

/-! Output lengths of the four drivers, for arbitrary (possibly mismatched)
input lengths. -/

lemma cartesian_seq_simd_length (lx ly rx ry : List ℝ) :
    (cartesian_seq_simd lx ly rx ry).length = 64 * (minLen4 lx ly rx ry / 64) := by
  rw [cartesian_seq_simd_eq_take, List.length_take, map4_length]
  omega

lemma cartesian_par_simd_length (lx ly rx ry : List ℝ) :
    (cartesian_par_simd lx ly rx ry).length = 64 * (minLen4 lx ly rx ry / 64) := by
  rw [cartesian_par_simd_eq_take, List.length_take, map4_length]
  omega

lemma cartesian_par_elementwise_length (lx ly rx ry : List ℝ) :
    (cartesian_par_elementwise lx ly rx ry).length
      = 128000 * (minLen4 lx ly rx ry / 128000) := by
  rw [cartesian_par_elementwise_eq_take, List.length_take, map4_length]
  omega

lemma cartesian_par_batch_simd_length (lx ly rx ry : List ℝ) :
    (cartesian_par_batch_simd lx ly rx ry).length
      = 128000 * (minLen4 lx ly rx ry / 128000) := by
  rw [cartesian_par_batch_simd_eq_take, List.length_take, map4_length]
  omega

/-! Index-wise evaluation through `take` and `map4`. -/

lemma getD_take {l : List ℝ} {t i : Nat} (h : i < t) :
    (l.take t).getD i 0 = l.getD i 0 := by
  rw [List.getD_eq_getElem?_getD, List.getD_eq_getElem?_getD, List.getElem?_take_of_lt h]

lemma take_scalarMap_getD (w : Nat) (lx ly rx ry : List ℝ) (i : Nat)
    (hi : i < w * (minLen4 lx ly rx ry / w)) :
    ((map4 cartesian_elementwise lx ly rx ry).take
        (w * (minLen4 lx ly rx ry / w))).getD i 0
      = cartesian_elementwise (lx.getD i 0) (ly.getD i 0) (rx.getD i 0) (ry.getD i 0) := by
  rw [getD_take hi]
  apply map4_getD
  have h1 : w * (minLen4 lx ly rx ry / w) ≤ minLen4 lx ly rx ry := by
    rw [Nat.mul_comm]
    exact Nat.div_mul_le_self _ _
  omega

/-! Helpers for concrete scenarios and symmetry. -/

lemma map4_replicate (f : ℝ → ℝ → ℝ → ℝ → ℝ) (a b c d : ℝ) :
    ∀ n, map4 f (List.replicate n a) (List.replicate n b)
      (List.replicate n c) (List.replicate n d) = List.replicate n (f a b c d)
  | 0 => rfl
  | n + 1 => by
    simp only [List.replicate_succ, map4_cons, map4_replicate f a b c d n]

lemma minLen4_replicate {α : Type} (n : Nat) (a b c d : α) :
    minLen4 (List.replicate n a) (List.replicate n b)
      (List.replicate n c) (List.replicate n d) = n := by
  unfold minLen4
  simp

lemma map4_swap {α ε : Type} (f g : α → α → α → α → ε)
    (hfg : ∀ a b c d, f a b c d = g c d a b) :
    ∀ (as bs cs ds : List α), map4 f as bs cs ds = map4 g cs ds as bs
  | [], bs, cs, ds => by simp
  | _ :: _, [], cs, ds => by simp
  | _ :: _, _ :: _, [], ds => by simp
  | _ :: _, _ :: _, _ :: _, [] => by simp
  | a :: as, b :: bs, c :: cs, d :: ds => by
    simp only [map4_cons]
    rw [hfg a b c d, map4_swap f g hfg as bs cs ds]

lemma block_boundary_le_lane_boundary (n : Nat) :
    128000 * (n / 128000) ≤ 64 * (n / 64) := by
  have h1 : n / 64 / 2000 = n / 128000 := by
    rw [Nat.div_div_eq_div_mul]
  calc 128000 * (n / 128000) = 64 * (2000 * (n / 64 / 2000)) := by rw [h1]; ring
  _ ≤ 64 * (n / 64) := by
      apply Nat.mul_le_mul_left
      rw [Nat.mul_comm]
      exact Nat.div_mul_le_self _ _

lemma cartesian_elementwise_nonneg (a b c d : ℝ) : 0 ≤ cartesian_elementwise a b c d :=
  Real.sqrt_nonneg _

lemma cartesian_elementwise_self (a b : ℝ) (c d : ℝ) (hx : a = c) (hy : b = d) :
    cartesian_elementwise a b c d = 0 := by
  unfold cartesian_elementwise
  rw [hx, hy]
  simp

lemma scenario_value : cartesian_elementwise 0 1 1 0 = Real.sqrt 2 := by
  unfold cartesian_elementwise
  norm_num

/-! Claim theorems. -/

/-- C1: for all equal-length input arrays, each of `cartesian_seq_simd`,
`cartesian_par_elementwise`, `cartesian_par_simd` and `cartesian_par_batch_simd`
equals the element-wise `cartesian_elementwise` map restricted (by `List.take`)
to the index range that survives that strategy's truncation boundary.  In the
real-number model the agreement is exact, hence within any tolerance. -/
theorem equivalence_to_scalar (lx ly rx ry : List ℝ)
    (hb : ly.length = lx.length) (hc : rx.length = lx.length)
    (hd : ry.length = lx.length) :
    cartesian_seq_simd lx ly rx ry
        = (map4 cartesian_elementwise lx ly rx ry).take (64 * (lx.length / 64))
    ∧ cartesian_par_elementwise lx ly rx ry
        = (map4 cartesian_elementwise lx ly rx ry).take (128000 * (lx.length / 128000))
    ∧ cartesian_par_simd lx ly rx ry
        = (map4 cartesian_elementwise lx ly rx ry).take (64 * (lx.length / 64))
    ∧ cartesian_par_batch_simd lx ly rx ry
        = (map4 cartesian_elementwise lx ly rx ry).take (128000 * (lx.length / 128000)) := by
  have hm : minLen4 lx ly rx ry = lx.length := by
    unfold minLen4
    omega
  refine ⟨?_, ?_, ?_, ?_⟩
  · rw [cartesian_seq_simd_eq_take, hm]
  · rw [cartesian_par_elementwise_eq_take, hm]
  · rw [cartesian_par_simd_eq_take, hm]
  · rw [cartesian_par_batch_simd_eq_take, hm]

/-- Witness for C1: the equal-length hypotheses hold at four replicate-64
arrays and the four equivalence equations follow by applying the theorem. -/
theorem equivalence_to_scalar_witness :
    ((List.replicate 64 (1:ℝ)).length = (List.replicate 64 (0:ℝ)).length
      ∧ (List.replicate 64 (1:ℝ)).length = (List.replicate 64 (0:ℝ)).length
      ∧ (List.replicate 64 (0:ℝ)).length = (List.replicate 64 (0:ℝ)).length)
    ∧ (cartesian_seq_simd (List.replicate 64 (0:ℝ)) (List.replicate 64 1)
          (List.replicate 64 1) (List.replicate 64 0)
        = (map4 cartesian_elementwise (List.replicate 64 (0:ℝ)) (List.replicate 64 1)
            (List.replicate 64 1) (List.replicate 64 0)).take
            (64 * ((List.replicate 64 (0:ℝ)).length / 64))
      ∧ cartesian_par_elementwise (List.replicate 64 (0:ℝ)) (List.replicate 64 1)
          (List.replicate 64 1) (List.replicate 64 0)
        = (map4 cartesian_elementwise (List.replicate 64 (0:ℝ)) (List.replicate 64 1)
            (List.replicate 64 1) (List.replicate 64 0)).take
            (128000 * ((List.replicate 64 (0:ℝ)).length / 128000))
      ∧ cartesian_par_simd (List.replicate 64 (0:ℝ)) (List.replicate 64 1)
          (List.replicate 64 1) (List.replicate 64 0)
        = (map4 cartesian_elementwise (List.replicate 64 (0:ℝ)) (List.replicate 64 1)
            (List.replicate 64 1) (List.replicate 64 0)).take
            (64 * ((List.replicate 64 (0:ℝ)).length / 64))
      ∧ cartesian_par_batch_simd (List.replicate 64 (0:ℝ)) (List.replicate 64 1)
          (List.replicate 64 1) (List.replicate 64 0)
        = (map4 cartesian_elementwise (List.replicate 64 (0:ℝ)) (List.replicate 64 1)
            (List.replicate 64 1) (List.replicate 64 0)).take
            (128000 * ((List.replicate 64 (0:ℝ)).length / 128000))) :=
  ⟨⟨by simp, by simp, by simp⟩,
    equivalence_to_scalar (List.replicate 64 (0:ℝ)) (List.replicate 64 1)
      (List.replicate 64 1) (List.replicate 64 0) (by simp) (by simp) (by simp)⟩

/-- C2: the scalar kernel `cartesian_elementwise` returns
`sqrt ((rx - lx)^2 + (ry - ly)^2)`; it is a pure total function of its four
real arguments (totality is inherent in its Lean type, with no partiality or
failure path in the embedding, matching the branch-free source). -/
theorem scalar_kernel_formula (lx ly rx ry : ℝ) :
    cartesian_elementwise lx ly rx ry = Real.sqrt ((rx - lx) ^ 2 + (ry - ly) ^ 2) := by
  unfold cartesian_elementwise
  congr 1
  ring

/-- C9: the distance is symmetric under swapping the lhs point set with the
rhs point set, both for the scalar kernel and for the SIMD kernel. -/
theorem distance_symmetry :
    (∀ lx ly rx ry : ℝ,
      cartesian_elementwise lx ly rx ry = cartesian_elementwise rx ry lx ly)
    ∧ ∀ lx ly rx ry : List ℝ,
      cartesian_simd lx ly rx ry = cartesian_simd rx ry lx ly := by
  constructor
  · intro lx ly rx ry
    unfold cartesian_elementwise
    congr 1
    ring
  · intro lx ly rx ry
    unfold cartesian_simd
    apply map4_swap
    intro a b c d
    simp only [mulAdd]
    exact congrArg Real.sqrt (by ring)

lemma mem_take_scalarMap_nonneg {lx ly rx ry : List ℝ} {t : Nat} {x : ℝ}
    (hx : x ∈ (map4 cartesian_elementwise lx ly rx ry).take t) : 0 ≤ x := by
  obtain ⟨a, b, c, d, _, _, _, _, rfl⟩ := mem_map4 (List.take_subset t _ hx)
  exact Real.sqrt_nonneg _

lemma getD_zero_of_coincident (w : Nat) (lx ly rx ry : List ℝ) (i : Nat)
    (hi : i < w * (minLen4 lx ly rx ry / w))
    (hx : lx.getD i 0 = rx.getD i 0) (hy : ly.getD i 0 = ry.getD i 0) :
    ((map4 cartesian_elementwise lx ly rx ry).take
        (w * (minLen4 lx ly rx ry / w))).getD i 0 = 0 := by
  rw [take_scalarMap_getD w lx ly rx ry i hi]
  exact cartesian_elementwise_self _ _ _ _ hx hy

/-- C10: every element of every strategy's output is non-negative, for all
inputs; and wherever the two input points coincide element-wise at a surviving
index, the output element there is exactly 0, for every strategy. -/
theorem nonneg_and_zero_when_coincident (lx ly rx ry : List ℝ) :
    ((∀ x ∈ cartesian_seq_simd lx ly rx ry, 0 ≤ x)
      ∧ (∀ x ∈ cartesian_par_elementwise lx ly rx ry, 0 ≤ x)
      ∧ (∀ x ∈ cartesian_par_simd lx ly rx ry, 0 ≤ x)
      ∧ (∀ x ∈ cartesian_par_batch_simd lx ly rx ry, 0 ≤ x))
    ∧ ((∀ i, i < (cartesian_seq_simd lx ly rx ry).length →
          lx.getD i 0 = rx.getD i 0 → ly.getD i 0 = ry.getD i 0 →
          (cartesian_seq_simd lx ly rx ry).getD i 0 = 0)
      ∧ (∀ i, i < (cartesian_par_elementwise lx ly rx ry).length →
          lx.getD i 0 = rx.getD i 0 → ly.getD i 0 = ry.getD i 0 →
          (cartesian_par_elementwise lx ly rx ry).getD i 0 = 0)
      ∧ (∀ i, i < (cartesian_par_simd lx ly rx ry).length →
          lx.getD i 0 = rx.getD i 0 → ly.getD i 0 = ry.getD i 0 →
          (cartesian_par_simd lx ly rx ry).getD i 0 = 0)
      ∧ (∀ i, i < (cartesian_par_batch_simd lx ly rx ry).length →
          lx.getD i 0 = rx.getD i 0 → ly.getD i 0 = ry.getD i 0 →
          (cartesian_par_batch_simd lx ly rx ry).getD i 0 = 0)) := by
  constructor
  · refine ⟨?_, ?_, ?_, ?_⟩
    · intro x hx
      rw [cartesian_seq_simd_eq_take] at hx
      exact mem_take_scalarMap_nonneg hx
    · intro x hx
      rw [cartesian_par_elementwise_eq_take] at hx
      exact mem_take_scalarMap_nonneg hx
    · intro x hx
      rw [cartesian_par_simd_eq_take] at hx
      exact mem_take_scalarMap_nonneg hx
    · intro x hx
      rw [cartesian_par_batch_simd_eq_take] at hx
      exact mem_take_scalarMap_nonneg hx
  · refine ⟨?_, ?_, ?_, ?_⟩
    · intro i hi hx hy
      rw [cartesian_seq_simd_length] at hi
      rw [cartesian_seq_simd_eq_take]
      exact getD_zero_of_coincident 64 lx ly rx ry i hi hx hy
    · intro i hi hx hy
      rw [cartesian_par_elementwise_length] at hi
      rw [cartesian_par_elementwise_eq_take]
      exact getD_zero_of_coincident 128000 lx ly rx ry i hi hx hy
    · intro i hi hx hy
      rw [cartesian_par_simd_length] at hi
      rw [cartesian_par_simd_eq_take]
      exact getD_zero_of_coincident 64 lx ly rx ry i hi hx hy
    · intro i hi hx hy
      rw [cartesian_par_batch_simd_length] at hi
      rw [cartesian_par_batch_simd_eq_take]
      exact getD_zero_of_coincident 128000 lx ly rx ry i hi hx hy

/-- Witness for C10: at coinciding replicate-64 points the first surviving
output element of `cartesian_seq_simd` is exactly 0, via the theorem applied
at index 0 with all side conditions discharged concretely. -/
theorem nonneg_and_zero_when_coincident_witness :
    (cartesian_seq_simd (List.replicate 64 (1:ℝ)) (List.replicate 64 1)
        (List.replicate 64 1) (List.replicate 64 1)).getD 0 0 = 0 :=
  (nonneg_and_zero_when_coincident (List.replicate 64 (1:ℝ)) (List.replicate 64 1)
      (List.replicate 64 1) (List.replicate 64 1)).2.1 0
    (by rw [cartesian_seq_simd_length, minLen4_replicate]; norm_num) rfl rfl

/-- C3 counterexample: at N = 64 the code's `cartesian_par_simd` returns 64
distances, whereas the claimed B = 128000 block-level partitioning nested with
W = 64 windows would return none, since 64-element inputs contain no full
128000 block (the claimed effective length is `128000 * (64 / 128000) = 0`). -/
theorem par_simd_block_counterexample :
    (cartesian_par_simd (List.replicate 64 (0:ℝ)) (List.replicate 64 0)
        (List.replicate 64 0) (List.replicate 64 0)).length = 64
    ∧ 128000 * ((List.replicate 64 (0:ℝ)).length / 128000) = 0 := by
  constructor
  · rw [cartesian_par_simd_length, minLen4_replicate]
  · simp

/-- C3 amended: `cartesian_par_simd` partitions directly into width-64 windows
distributed across workers, with no 128000-element block level; it computes
exactly the same list as `cartesian_seq_simd` and its effective output length
is `64 * (N / 64)`, determined by W = 64 alone. -/
theorem par_simd_single_level (lx ly rx ry : List ℝ)
    (hb : ly.length = lx.length) (hc : rx.length = lx.length)
    (hd : ry.length = lx.length) :
    cartesian_par_simd lx ly rx ry = cartesian_seq_simd lx ly rx ry
    ∧ (cartesian_par_simd lx ly rx ry).length = 64 * (lx.length / 64) := by
  have hm : minLen4 lx ly rx ry = lx.length := by
    unfold minLen4
    omega
  exact ⟨rfl, by rw [cartesian_par_simd_length, hm]⟩

/-- Witness for C3 amended at replicate-64 arrays. -/
theorem par_simd_single_level_witness :
    (cartesian_par_simd (List.replicate 64 (0:ℝ)) (List.replicate 64 1)
        (List.replicate 64 1) (List.replicate 64 0)
      = cartesian_seq_simd (List.replicate 64 (0:ℝ)) (List.replicate 64 1)
        (List.replicate 64 1) (List.replicate 64 0))
    ∧ (cartesian_par_simd (List.replicate 64 (0:ℝ)) (List.replicate 64 1)
        (List.replicate 64 1) (List.replicate 64 0)).length
      = 64 * ((List.replicate 64 (0:ℝ)).length / 64) :=
  par_simd_single_level (List.replicate 64 (0:ℝ)) (List.replicate 64 1)
    (List.replicate 64 1) (List.replicate 64 0) (by simp) (by simp) (by simp)

/-- C4 counterexample: at N = 64 the two strategies disagree:
`cartesian_par_batch_simd` returns the empty list (no full 128000 block) while
`cartesian_par_simd` returns 64 distances. -/
theorem par_batch_ne_par_simd :
    cartesian_par_batch_simd (List.replicate 64 (0:ℝ)) (List.replicate 64 0)
        (List.replicate 64 0) (List.replicate 64 0)
      ≠ cartesian_par_simd (List.replicate 64 (0:ℝ)) (List.replicate 64 0)
        (List.replicate 64 0) (List.replicate 64 0) := by
  intro h
  have hlen := congrArg List.length h
  rw [cartesian_par_batch_simd_length, cartesian_par_simd_length,
    minLen4_replicate] at hlen
  norm_num at hlen

/-- C4 amended: `cartesian_par_batch_simd` equals `cartesian_par_simd`
restricted to the first `128000 * (N / 128000)` indices (the prefix surviving
the 128000-block truncation); on that common range the two agree exactly, and
they coincide in full precisely when the two truncation boundaries agree. -/
theorem par_batch_prefix_of_par_simd (lx ly rx ry : List ℝ)
    (hb : ly.length = lx.length) (hc : rx.length = lx.length)
    (hd : ry.length = lx.length) :
    cartesian_par_batch_simd lx ly rx ry
      = (cartesian_par_simd lx ly rx ry).take (128000 * (lx.length / 128000)) := by
  have hm : minLen4 lx ly rx ry = lx.length := by
    unfold minLen4
    omega
  rw [cartesian_par_batch_simd_eq_take, cartesian_par_simd_eq_take, List.take_take, hm]
  congr 1
  exact (min_eq_left (block_boundary_le_lane_boundary lx.length)).symm

/-- Witness for C4 amended at replicate-64 arrays. -/
theorem par_batch_prefix_of_par_simd_witness :
    cartesian_par_batch_simd (List.replicate 64 (0:ℝ)) (List.replicate 64 1)
        (List.replicate 64 1) (List.replicate 64 0)
      = (cartesian_par_simd (List.replicate 64 (0:ℝ)) (List.replicate 64 1)
          (List.replicate 64 1) (List.replicate 64 0)).take
          (128000 * ((List.replicate 64 (0:ℝ)).length / 128000)) :=
  par_batch_prefix_of_par_simd (List.replicate 64 (0:ℝ)) (List.replicate 64 1)
    (List.replicate 64 1) (List.replicate 64 0) (by simp) (by simp) (by simp)

/-- C5: for equal-length inputs the chunked drivers produce exactly
`floor(N/chunk) * chunk` outputs — the trailing `N mod chunk` elements are
absent, not zero-filled and not an error — and every surviving index of
`cartesian_seq_simd` carries the scalar distance of its own input pair. -/
theorem truncation_boundary (lx ly rx ry : List ℝ)
    (hb : ly.length = lx.length) (hc : rx.length = lx.length)
    (hd : ry.length = lx.length) :
    (cartesian_seq_simd lx ly rx ry).length = 64 * (lx.length / 64)
    ∧ (cartesian_par_elementwise lx ly rx ry).length = 128000 * (lx.length / 128000)
    ∧ ∀ i, i < 64 * (lx.length / 64) →
        (cartesian_seq_simd lx ly rx ry).getD i 0
          = cartesian_elementwise (lx.getD i 0) (ly.getD i 0) (rx.getD i 0) (ry.getD i 0) := by
  have hm : minLen4 lx ly rx ry = lx.length := by
    unfold minLen4
    omega
  refine ⟨by rw [cartesian_seq_simd_length, hm],
    by rw [cartesian_par_elementwise_length, hm], ?_⟩
  intro i hi
  rw [cartesian_seq_simd_eq_take]
  have h := take_scalarMap_getD 64 lx ly rx ry i (by rw [hm]; exact hi)
  exact h

/-- Witness for C5 at N = 133 = 64*2 + 5: the output of `cartesian_seq_simd`
has length exactly 128 and index 5 (for instance) carries its scalar
distance; indices 128..132 are absent because the length is 128. -/
theorem truncation_boundary_witness :
    (cartesian_seq_simd (List.replicate 133 (0:ℝ)) (List.replicate 133 1)
        (List.replicate 133 1) (List.replicate 133 0)).length = 128
    ∧ (cartesian_seq_simd (List.replicate 133 (0:ℝ)) (List.replicate 133 1)
        (List.replicate 133 1) (List.replicate 133 0)).getD 5 0
      = cartesian_elementwise ((List.replicate 133 (0:ℝ)).getD 5 0)
          ((List.replicate 133 (1:ℝ)).getD 5 0) ((List.replicate 133 (1:ℝ)).getD 5 0)
          ((List.replicate 133 (0:ℝ)).getD 5 0) := by
  have h := truncation_boundary (List.replicate 133 (0:ℝ)) (List.replicate 133 1)
    (List.replicate 133 1) (List.replicate 133 0) (by simp) (by simp) (by simp)
  constructor
  · have h1 := h.1
    simp only [List.length_replicate] at h1
    omega
  · exact h.2.2 5 (by simp)

/-- C6: for equal-length inputs, every surviving index of each parallel
strategy's output carries the scalar distance of its own input pair — the
order-preserving reduction reassembles block results in original block order,
so the output matches input index order modulo truncation. -/
theorem order_preservation (lx ly rx ry : List ℝ)
    ( _hb : ly.length = lx.length) ( _hc : rx.length = lx.length)
    ( _hd : ry.length = lx.length) :
    (∀ i, i < (cartesian_par_elementwise lx ly rx ry).length →
        (cartesian_par_elementwise lx ly rx ry).getD i 0
          = cartesian_elementwise (lx.getD i 0) (ly.getD i 0) (rx.getD i 0) (ry.getD i 0))
    ∧ (∀ i, i < (cartesian_par_simd lx ly rx ry).length →
        (cartesian_par_simd lx ly rx ry).getD i 0
          = cartesian_elementwise (lx.getD i 0) (ly.getD i 0) (rx.getD i 0) (ry.getD i 0))
    ∧ (∀ i, i < (cartesian_par_batch_simd lx ly rx ry).length →
        (cartesian_par_batch_simd lx ly rx ry).getD i 0
          = cartesian_elementwise (lx.getD i 0) (ly.getD i 0) (rx.getD i 0) (ry.getD i 0)) := by
  refine ⟨?_, ?_, ?_⟩
  · intro i hi
    rw [cartesian_par_elementwise_length] at hi
    rw [cartesian_par_elementwise_eq_take]
    exact take_scalarMap_getD 128000 lx ly rx ry i hi
  · intro i hi
    rw [cartesian_par_simd_length] at hi
    rw [cartesian_par_simd_eq_take]
    exact take_scalarMap_getD 64 lx ly rx ry i hi
  · intro i hi
    rw [cartesian_par_batch_simd_length] at hi
    rw [cartesian_par_batch_simd_eq_take]
    exact take_scalarMap_getD 128000 lx ly rx ry i hi

/-- Witness for C6: with equal-length replicate-64 arrays, the surviving index
0 of `cartesian_par_simd` carries its own pair's scalar distance. -/
theorem order_preservation_witness :
    (cartesian_par_simd (List.replicate 64 (0:ℝ)) (List.replicate 64 1)
        (List.replicate 64 1) (List.replicate 64 0)).getD 0 0
      = cartesian_elementwise ((List.replicate 64 (0:ℝ)).getD 0 0)
          ((List.replicate 64 (1:ℝ)).getD 0 0) ((List.replicate 64 (1:ℝ)).getD 0 0)
          ((List.replicate 64 (0:ℝ)).getD 0 0) :=
  (order_preservation (List.replicate 64 (0:ℝ)) (List.replicate 64 1)
      (List.replicate 64 1) (List.replicate 64 0) (by simp) (by simp) (by simp)).2.1 0
    (by rw [cartesian_par_simd_length, minLen4_replicate]; norm_num)

/-- C7 counterexample: N = 128 is not a multiple of the block size B = 128000,
so truncation ambiguity does arise in the concrete scenario: the
`cartesian_par_elementwise` output at the scenario inputs is empty rather than
128 copies of `sqrt 2`. -/
theorem scenario128_par_elementwise_empty :
    (cartesian_par_elementwise (List.replicate 128 (0:ℝ)) (List.replicate 128 1)
        (List.replicate 128 1) (List.replicate 128 0)).length = 0 := by
  rw [cartesian_par_elementwise_length, minLen4_replicate]

/-- C7 amended: in the N = 128 scenario (`lhs = (0,1)`, `rhs = (1,0)` at every
index) the two W = 64 strategies return 128 copies of `sqrt 2`, while the two
B = 128000 strategies return the empty list because 128 < B, so their
"every output element equals sqrt 2" holds only vacuously. -/
theorem scenario128_amended :
    cartesian_seq_simd (List.replicate 128 (0:ℝ)) (List.replicate 128 1)
        (List.replicate 128 1) (List.replicate 128 0)
      = List.replicate 128 (Real.sqrt 2)
    ∧ cartesian_par_simd (List.replicate 128 (0:ℝ)) (List.replicate 128 1)
        (List.replicate 128 1) (List.replicate 128 0)
      = List.replicate 128 (Real.sqrt 2)
    ∧ cartesian_par_elementwise (List.replicate 128 (0:ℝ)) (List.replicate 128 1)
        (List.replicate 128 1) (List.replicate 128 0) = []
    ∧ cartesian_par_batch_simd (List.replicate 128 (0:ℝ)) (List.replicate 128 1)
        (List.replicate 128 1) (List.replicate 128 0) = [] := by
  refine ⟨?_, ?_, ?_, ?_⟩
  · rw [cartesian_seq_simd_eq_take, minLen4_replicate, map4_replicate, scenario_value,
      List.take_replicate]
    norm_num
  · rw [cartesian_par_simd_eq_take, minLen4_replicate, map4_replicate, scenario_value,
      List.take_replicate]
    norm_num
  · rw [cartesian_par_elementwise_eq_take, minLen4_replicate]
    norm_num
  · rw [cartesian_par_batch_simd_eq_take, minLen4_replicate]
    norm_num

/-- C8 counterexample: with mismatched input lengths (64, 128, 128, 128) no
rejection happens: `cartesian_seq_simd` silently returns a result truncated to
the shortest array's full windows, of length 64. -/
theorem mismatched_lengths_silent :
    (cartesian_seq_simd (List.replicate 64 (0:ℝ)) (List.replicate 128 (0:ℝ))
        (List.replicate 128 (0:ℝ)) (List.replicate 128 (0:ℝ))).length = 64 := by
  rw [cartesian_seq_simd_length]
  unfold minLen4
  simp

/-- C8 amended: no precondition check on the four lengths exists anywhere; the
zipped `chunks_exact` streams silently truncate every strategy to the full
chunks of the shortest input array, so the output length is always
`chunk * (minLen4 / chunk)` even for mismatched inputs. -/
theorem no_length_check_silent_truncation (lx ly rx ry : List ℝ) :
    (cartesian_seq_simd lx ly rx ry).length = 64 * (minLen4 lx ly rx ry / 64)
    ∧ (cartesian_par_simd lx ly rx ry).length = 64 * (minLen4 lx ly rx ry / 64)
    ∧ (cartesian_par_elementwise lx ly rx ry).length
      = 128000 * (minLen4 lx ly rx ry / 128000)
    ∧ (cartesian_par_batch_simd lx ly rx ry).length
      = 128000 * (minLen4 lx ly rx ry / 128000) :=
  ⟨cartesian_seq_simd_length lx ly rx ry, cartesian_par_simd_length lx ly rx ry,
    cartesian_par_elementwise_length lx ly rx ry,
    cartesian_par_batch_simd_length lx ly rx ry⟩

end SimdDistance
